import Mathlib

/-
Verification of the OverUnder chat client core: the report extractor
(geminiService `sendMessageToGemini`, extraction section), the session store
(services/storageService.ts) and the session lifecycle handlers (App.tsx).

Modelling conventions:
* JS strings are `List Char`; JS numbers are exact rationals `ℚ`
  (the numeric literals appearing in the claims are decimal-exact).
* `localStorage` for the session collection is a `StoreState`: `empty`
  (key absent), `corrupt` (a stored string that `JSON.parse` rejects), or
  `valid all` (a stored string parsing to the session array `all`).
  A JS function that can throw is modelled with `Except Unit`.
* `JSON.parse` inside the extractor is a host builtin, not repository code;
  the extractor is therefore parametrised by an abstract
  `parse : List Char → Option α` and the theorems quantify over it.
-/

set_option maxHeartbeats 1000000

namespace OverUnder

/-! ## Data model (types.ts) -/

/-- JS `string | number` union, with numbers as exact rationals. -/
inductive JsValue : Type
  | num (q : ℚ)
  | str (s : List Char)
deriving DecidableEq

inductive Signal : Type
  | undervalued
  | overvalued
  | neutral
deriving DecidableEq

inductive Recommendation : Type
  | strongBuy
  | buy
  | hold
  | sell
  | strongSell
deriving DecidableEq

inductive ValuationStatus : Type
  | undervalued
  | overvalued
  | fairlyValued
deriving DecidableEq

structure StockMetric : Type where
  label : List Char
  value : JsValue
  benchmark : JsValue
  signal : Signal
  explanation : List Char
deriving DecidableEq

structure StockReportData : Type where
  symbol : List Char
  companyName : List Char
  currentPrice : List Char
  recommendation : Recommendation
  valuationStatus : ValuationStatus
  confidenceScore : ℚ
  summary : List Char
  metrics : List StockMetric
  riskFactors : List (List Char)
deriving DecidableEq

inductive Role : Type
  | user
  | model
deriving DecidableEq

structure GroundingUrl : Type where
  title : List Char
  uri : List Char
deriving DecidableEq

structure ChatMessage : Type where
  id : List Char
  role : Role
  text : List Char
  isReport : Option Bool := none
  reportData : Option StockReportData := none
  isLoading : Option Bool := none
  groundingUrls : Option (List GroundingUrl) := none
deriving DecidableEq

structure ChatSession : Type where
  id : List Char
  userId : List Char
  title : List Char
  messages : List ChatMessage
  createdAt : Nat
  lastModified : Nat
deriving DecidableEq

/-! ## Persistence store (services/storageService.ts)

The `overunder_sessions` key of `localStorage` either holds nothing, holds a
string `JSON.parse` rejects, or holds a string parsing to a session array. -/

inductive StoreState : Type
  | empty
  | corrupt
  | valid (all : List ChatSession)
deriving DecidableEq

/-- Stable insertion step of the descending-by-`lastModified` sort that
`getChatSessions` performs via `sort((a, b) => b.lastModified - a.lastModified)`
(ECMAScript sorts are stable). -/
def insertDesc (s : ChatSession) : List ChatSession → List ChatSession
  | [] => [s]
  | t :: ts =>
    if t.lastModified ≤ s.lastModified then s :: t :: ts else t :: insertDesc s ts

/-- Stable sort by `lastModified` descending. -/
def sortDesc : List ChatSession → List ChatSession
  | [] => []
  | s :: rest => insertDesc s (sortDesc rest)

/-- `getChatSessions` (storageService.ts lines 34-42): returns `[]` when the
key is absent; `JSON.parse(stored)` throws on a corrupt store; otherwise
filters the collection by `userId` and sorts by `lastModified` descending. -/
def getChatSessions (userId : List Char) : StoreState → Except Unit (List ChatSession)
  | .empty => .ok []
  | .corrupt => .error ()
  | .valid all => .ok (sortDesc (all.filter (fun s => s.userId == userId)))

/-- The `findIndex`-replace-or-push step of `saveChatSession`: replace the
first record with the session's id, or append when there is none. -/
def upsert (session : ChatSession) : List ChatSession → List ChatSession
  | [] => [session]
  | s :: rest => if s.id == session.id then session :: rest else s :: upsert session rest

/-- `saveChatSession` (storageService.ts lines 44-56): read the collection
(`[]` when absent, throw when corrupt), upsert by id, write back. -/
def saveChatSession (session : ChatSession) : StoreState → Except Unit StoreState
  | .empty => .ok (.valid (upsert session []))
  | .corrupt => .error ()
  | .valid all => .ok (.valid (upsert session all))

/-- `deleteChatSession` (storageService.ts lines 58-64): no-op when the key is
absent, throw when corrupt, otherwise drop every record with the given id. -/
def deleteChatSession (sessionId : List Char) : StoreState → Except Unit StoreState
  | .empty => .ok .empty
  | .corrupt => .error ()
  | .valid all => .ok (.valid (all.filter (fun s => !(s.id == sessionId))))

/-- `natRepr n` is JS `n.toString()` for a non-negative integer. -/
def natRepr (n : Nat) : List Char := Nat.toDigits 10 n

/-- `createNewSession` (storageService.ts lines 66-75); `Date.now()` is the
`now` parameter. -/
def createNewSession (userId : List Char) (now : Nat) : ChatSession :=
  { id := natRepr now
    userId := userId
    title := "New Analysis".toList
    messages := []
    createdAt := now
    lastModified := now }

/-! ## Report extractor (geminiService `sendMessageToGemini`, lines 98-121) -/

/-- The whitespace class of the JS regex `\s` and of `String.prototype.trim`
(WhiteSpace plus LineTerminator code points). -/
def isJsWs (c : Char) : Bool :=
  let n := c.toNat
  n == 9 || n == 10 || n == 11 || n == 12 || n == 13 || n == 32 || n == 160 ||
  n == 0x1680 || (0x2000 ≤ n && n ≤ 0x200A) || n == 0x2028 || n == 0x2029 ||
  n == 0x202F || n == 0x205F || n == 0x3000 || n == 0xFEFF

/-- JS `String.prototype.trim`; also the effect of the `\s*(...)\s*` capture of
the fence regex on the inner span. -/
def jsTrim (s : List Char) : List Char :=
  ((s.dropWhile isJsWs).reverse.dropWhile isJsWs).reverse

/-- Does `pat` occur at the head of `s`? -/
def startsWithPat : List Char → List Char → Bool
  | [], _ => true
  | _ :: _, [] => false
  | p :: ps, c :: cs => p == c && startsWithPat ps cs

/-- First occurrence of `pat` inside `s`, split as (text before, text after). -/
def splitFirst (pat : List Char) : List Char → Option (List Char × List Char)
  | [] => if startsWithPat pat [] then some ([], []) else none
  | c :: rest =>
    if startsWithPat pat (c :: rest) then some ([], (c :: rest).drop pat.length)
    else (splitFirst pat rest).map (fun p => (c :: p.1, p.2))

def openTag : List Char := "```json_report".toList

def closeTag : List Char := "```".toList

/-- The span matched by both fence regexes
`/```json_report\s*([\s\S]*?)\s*```/` and `/```json_report[\s\S]*?```/`:
from the first occurrence of the opening tag to the first closing fence after
it. Returns (before, inner, after); `none` when the regex does not match. -/
def extractFence (s : List Char) : Option (List Char × List Char × List Char) :=
  (splitFirst openTag s).bind fun p =>
    (splitFirst closeTag p.2).map fun q => (p.1, q.1, q.2)

/-- Fallback sentence substituted when removing the fence empties the text. -/
def fallbackText : List Char :=
  "Here is the valuation report based on the latest market data.".toList

/-- The value returned by the extraction section of `sendMessageToGemini`:
`text` is `cleanText`, `reportData` the optional parsed report. -/
structure ExtractResult (α : Type) : Type where
  text : List Char
  reportData : Option α
deriving DecidableEq

/-- Extraction section of `sendMessageToGemini` (lines 98-121): match the
fence regex; when the captured group (the `\s`-trimmed inner span) is
non-empty, try `JSON.parse` on it; on success remove the fenced block, trim,
and fall back to `fallbackText` when empty; on failure (or with no usable
match) return the original text with no report. -/
def extractReport {α : Type} (parse : List Char → Option α) (responseText : List Char) :
    ExtractResult α :=
  match extractFence responseText with
  | none => { text := responseText, reportData := none }
  | some (pre, inner, post) =>
    let grp := jsTrim inner
    if grp = [] then { text := responseText, reportData := none }
    else
      match parse grp with
      | none => { text := responseText, reportData := none }
      | some v =>
        let ct := jsTrim (pre ++ post)
        { text := if ct = [] then fallbackText else ct, reportData := some v }

/-! ## Session lifecycle handlers (App.tsx) -/

/-- Apostrophe character, kept out of string literals. -/
def apos : Char := Char.ofNat 39

/-- `INITIAL_WELCOME_MSG` (App.tsx lines 23-27). -/
def welcomeMessage : ChatMessage :=
  { id := "welcome-msg".toList
    role := .model
    text := "Hello! I".toList ++ [apos] ++
      "m OverUnder. I can help you analyze whether a stock is overvalued or undervalued using real-time data and key financial ratios (P/E, PEG, P/B, etc.). Which stock would you like to analyze today?".toList }

/-- The user `ChatMessage` built at the start of `handleSendMessage`
(App.tsx lines 136-140); `t0` is the `Date.now()` used for its id. -/
def mkUserMessage (t0 : Nat) (text : List Char) : ChatMessage :=
  { id := natRepr t0, role := .user, text := text }

/-- Title update of `handleSendMessage` (App.tsx lines 145-149): when the
session holds at most one prior message, the title becomes the input text,
truncated via `substring(0, 30)` plus an ellipsis when longer than 30. -/
def deriveTitle (cur : ChatSession) (input : List Char) : List Char :=
  if cur.messages.length ≤ 1 then
    if 30 < input.length then input.take 30 ++ "...".toList else input
  else cur.title

/-- `updatedSession` of `handleSendMessage` (App.tsx lines 151-156): the
session with the user message appended, the derived title, and `lastModified`
set to `Date.now()` (= `t0`). -/
def updatedSessionOf (cur : ChatSession) (input : List Char) (t0 : Nat) : ChatSession :=
  { cur with
    messages := cur.messages ++ [mkUserMessage t0 input]
    title := deriveTitle cur input
    lastModified := t0 }

/-- Transient loading placeholder (App.tsx lines 166-169). -/
def loadingMessage (t1 : Nat) : ChatMessage :=
  { id := "loading-".toList ++ natRepr t1
    role := .model
    text := []
    isLoading := some true }

/-- `sessionWithLoading` (App.tsx lines 167-170). -/
def sessionWithLoadingOf (cur : ChatSession) (input : List Char) (t0 t1 : Nat) : ChatSession :=
  { updatedSessionOf cur input t0 with
    messages := (updatedSessionOf cur input t0).messages ++ [loadingMessage t1] }

/-- Fixed apology text of the catch branch (App.tsx line 204). -/
def apologyText : List Char := "I encountered an error. Please try again.".toList

/-- The error `ChatMessage` of the catch branch (App.tsx lines 201-205). -/
def apologyMessage (t2 : Nat) : ChatMessage :=
  { id := natRepr t2, role := .model, text := apologyText }

/-- `errorSession` of the catch branch (App.tsx lines 207-211): the user
message followed by the apology (the loading placeholder, added only to the
in-memory list, is not part of `updatedMessages`). -/
def errorSessionOf (cur : ChatSession) (input : List Char) (t0 t2 : Nat) : ChatSession :=
  { updatedSessionOf cur input t0 with
    messages := cur.messages ++ [mkUserMessage t0 input, apologyMessage t2]
    lastModified := t2 }

/-- `setSessions(prev => prev.map(s => s.id === id ? s' : s))`. -/
def replaceById (id : List Char) (s' : ChatSession) (l : List ChatSession) :
    List ChatSession :=
  l.map (fun s => if s.id == id then s' else s)

/-- `handleSendMessage` (App.tsx lines 132-218) when the channel call
rejects: optimistic update and save of `updatedSession`, in-memory loading
placeholder, then the catch branch replacing it by `errorSession` and saving.
`t0`, `t1`, `t2` are the successive `Date.now()` readings; the result is the
final in-memory session list and store. -/
def sendExchangeError (sessions : List ChatSession) (store : StoreState)
    (cur : ChatSession) (input : List Char) (t0 t1 t2 : Nat) :
    Except Unit (List ChatSession × StoreState) :=
  let us := updatedSessionOf cur input t0
  let sessions1 := replaceById cur.id us sessions
  match saveChatSession us store with
  | .error e => .error e
  | .ok store1 =>
    let swl := sessionWithLoadingOf cur input t0 t1
    let sessions2 := replaceById cur.id swl sessions1
    let es := errorSessionOf cur input t0 t2
    let sessions3 := replaceById cur.id es sessions2
    match saveChatSession es store1 with
    | .error e => .error e
    | .ok store2 => .ok (sessions3, store2)

/-- `startNewChat` (App.tsx lines 87-96): synthesize a session, seed it with
the welcome message, save it, and prepend it to the in-memory list; the new
session becomes current. Returns (session list, current id, store). -/
def startNewChat (userId : List Char) (now : Nat) (sessions : List ChatSession)
    (store : StoreState) :
    Except Unit (List ChatSession × Option (List Char) × StoreState) :=
  let ns : ChatSession := { createNewSession userId now with messages := [welcomeMessage] }
  match saveChatSession ns store with
  | .error e => .error e
  | .ok store' => .ok (ns :: sessions, some ns.id, store')

/-- `handleDeleteSession` (App.tsx lines 220-232): delete from the store,
filter the in-memory list; when the deleted session was current, select the
first remaining session or start a new chat. -/
def handleDeleteSession (sessions : List ChatSession) (currentId : Option (List Char))
    (userId : List Char) (store : StoreState) (id : List Char) (now : Nat) :
    Except Unit (List ChatSession × Option (List Char) × StoreState) :=
  match deleteChatSession id store with
  | .error e => .error e
  | .ok store1 =>
    let filtered := sessions.filter (fun s => !(s.id == id))
    if currentId = some id then
      match filtered with
      | s0 :: _ => .ok (filtered, some s0.id, store1)
      | [] => startNewChat userId now filtered store1
    else
      .ok (filtered, currentId, store1)

/-! ## Metric value parsing (StockReport `parseValue`) -/

/-- JS `replace(/,/g, ...)`: drop every comma. -/
def removeCommas (s : List Char) : List Char :=
  s.filter (fun c => !(c == ','))

/-- Digit run and optional fraction of `-?\d+(\.\d+)?` after the optional
sign has been consumed: greedy digit run, then optionally a dot followed by a
non-empty greedy digit run. -/
def numTail (neg : Bool) (s1 : List Char) : Option (Bool × List Char × List Char) :=
  if s1.takeWhile Char.isDigit = [] then none
  else
    match s1.dropWhile Char.isDigit with
    | '.' :: r =>
      if r.takeWhile Char.isDigit = [] then some (neg, s1.takeWhile Char.isDigit, [])
      else some (neg, s1.takeWhile Char.isDigit, r.takeWhile Char.isDigit)
    | _ => some (neg, s1.takeWhile Char.isDigit, [])

/-- Attempt of the regex `-?\d+(\.\d+)?` anchored at the head of `s`:
optional minus sign, then `numTail`. Returns
(negative, integer digits, fraction digits). -/
def matchNumAt (s : List Char) : Option (Bool × List Char × List Char) :=
  numTail (decide (s.head? = some '-')) (if s.head? = some '-' then s.tail else s)

/-- First (leftmost) match of `-?\d+(\.\d+)?` in `s`, as found by
`String.prototype.match`. -/
def firstNum : List Char → Option (Bool × List Char × List Char)
  | [] => none
  | c :: rest =>
    match matchNumAt (c :: rest) with
    | some m => some m
    | none => firstNum rest

/-- Numeric value of a digit run. -/
def digitsToNat (ds : List Char) : Nat :=
  ds.foldl (fun a c => 10 * a + (c.toNat - 48)) 0

/-- `parseFloat` of a token `-?\d+(\.\d+)?`, as an exact rational. -/
def tokenValue (neg : Bool) (ds fs : List Char) : ℚ :=
  let m : ℚ := (digitsToNat ds : ℚ) + (digitsToNat fs : ℚ) / ((10 : ℚ) ^ fs.length)
  if neg then -m else m

/-- `parseValue` (StockReport component, lines 131-136): a number is returned
as is; a string is stripped of commas, matched against `-?\d+(\.\d+)?`, and
the first match is read with `parseFloat`; with no match the result is 0. -/
def parseValue : JsValue → ℚ
  | .num q => q
  | .str s =>
    match firstNum (removeCommas s) with
    | some (neg, ds, fs) => tokenValue neg ds fs
    | none => 0

/-! ## Named inputs and invariants used by the theorems -/

/-- The ids of the stored sessions. -/
def sessionIds (l : List ChatSession) : List (List Char) := l.map (fun s => s.id)

/-- The data-model invariant of the store: session ids are pairwise distinct.
A corrupt store has no well-formed collection at all. -/
def storeIdsUnique : StoreState → Prop
  | .empty => True
  | .corrupt => False
  | .valid all => (sessionIds all).Nodup

/-- The `>30` character user input of the title-derivation scenario. -/
def nvdaText : List Char :=
  "Should I buy NVDA? What about its PEG ratio and growth outlook".toList

/-- A fresh session holding only the seeded welcome message. -/
def welcomeSession : ChatSession :=
  { id := "s1".toList
    userId := "u1".toList
    title := "New Analysis".toList
    messages := [welcomeMessage]
    createdAt := 0
    lastModified := 0 }

/-- A small concrete session used by the witnesses. -/
def demoSession : ChatSession :=
  { id := "1".toList
    userId := "u".toList
    title := "New Analysis".toList
    messages := []
    createdAt := 0
    lastModified := 0 }

/-! ## Helper lemmas -/

theorem startsWithPat_eq (pat : List Char) :
    ∀ s : List Char, startsWithPat pat s = true → s = pat ++ s.drop pat.length := by
  induction pat with
  | nil => intro s _; simp
  | cons p ps ih =>
    intro s h
    cases s with
    | nil => simp [startsWithPat] at h
    | cons c cs =>
      simp only [startsWithPat, Bool.and_eq_true, beq_iff_eq] at h
      obtain ⟨rfl, h2⟩ := h
      simpa using ih cs h2

theorem splitFirst_eq (pat : List Char) :
    ∀ s a b : List Char, splitFirst pat s = some (a, b) → s = a ++ pat ++ b := by
  intro s
  induction s with
  | nil =>
    intro a b h
    simp only [splitFirst] at h
    by_cases hs : startsWithPat pat [] = true
    · rw [if_pos hs] at h
      obtain ⟨rfl, rfl⟩ := Prod.mk.injEq .. ▸ Option.some.injEq .. ▸ h
      cases pat with
      | nil => rfl
      | cons p ps => simp [startsWithPat] at hs
    · rw [if_neg hs] at h
      exact absurd h (by simp)
  | cons c cs ih =>
    intro a b h
    simp only [splitFirst] at h
    by_cases hs : startsWithPat pat (c :: cs) = true
    · rw [if_pos hs] at h
      obtain ⟨ha, hb⟩ := Prod.mk.injEq .. ▸ Option.some.injEq .. ▸ h
      subst ha
      subst hb
      simpa using startsWithPat_eq pat (c :: cs) hs
    · rw [if_neg hs] at h
      cases hsp : splitFirst pat cs with
      | none => rw [hsp] at h; simp at h
      | some q =>
        obtain ⟨a1, b1⟩ := q
        rw [hsp] at h
        simp at h
        obtain ⟨ha, hb⟩ := h
        subst ha
        subst hb
        simpa using ih a1 b1 hsp

theorem extractFence_eq (s pre inner post : List Char)
    (h : extractFence s = some (pre, inner, post)) :
    s = pre ++ openTag ++ inner ++ closeTag ++ post := by
  unfold extractFence at h
  cases h1 : splitFirst openTag s with
  | none => rw [h1] at h; simp at h
  | some p =>
    obtain ⟨pre1, rest⟩ := p
    rw [h1] at h
    simp only [Option.some_bind] at h
    cases h2 : splitFirst closeTag rest with
    | none => rw [h2] at h; simp at h
    | some q =>
      obtain ⟨inner1, post1⟩ := q
      rw [h2] at h
      simp at h
      obtain ⟨rfl, rfl, rfl⟩ := h
      have e1 := splitFirst_eq openTag s _ _ h1
      have e2 := splitFirst_eq closeTag rest _ _ h2
      rw [e1, e2]
      simp [List.append_assoc]

theorem insertDesc_perm (s : ChatSession) (l : List ChatSession) :
    (insertDesc s l).Perm (s :: l) := by
  induction l with
  | nil => simp [insertDesc]
  | cons t ts ih =>
    by_cases h : t.lastModified ≤ s.lastModified
    · simp [insertDesc, h]
    · rw [insertDesc, if_neg h]
      exact (ih.cons t).trans (List.Perm.swap s t ts)

theorem sortDesc_perm (l : List ChatSession) : (sortDesc l).Perm l := by
  induction l with
  | nil => simp [sortDesc]
  | cons s rest ih => exact (insertDesc_perm s (sortDesc rest)).trans (ih.cons s)

theorem insertDesc_pairwise (s : ChatSession) (l : List ChatSession)
    (h : l.Pairwise (fun a b => b.lastModified ≤ a.lastModified)) :
    (insertDesc s l).Pairwise (fun a b => b.lastModified ≤ a.lastModified) := by
  induction l with
  | nil => simp [insertDesc]
  | cons t ts ih =>
    rw [List.pairwise_cons] at h
    obtain ⟨ht, hts⟩ := h
    by_cases hle : t.lastModified ≤ s.lastModified
    · rw [insertDesc, if_pos hle]
      refine List.Pairwise.cons ?_ (List.Pairwise.cons ht hts)
      intro b hb
      rcases List.mem_cons.mp hb with rfl | hb
      · exact hle
      · exact le_trans (ht b hb) hle
    · rw [insertDesc, if_neg hle]
      refine List.Pairwise.cons ?_ (ih hts)
      intro b hb
      rcases List.mem_cons.mp ((insertDesc_perm s ts).mem_iff.mp hb) with rfl | hb
      · exact le_of_not_le hle
      · exact ht b hb

theorem sortDesc_pairwise (l : List ChatSession) :
    (sortDesc l).Pairwise (fun a b => b.lastModified ≤ a.lastModified) := by
  induction l with
  | nil => simp [sortDesc]
  | cons s rest ih => exact insertDesc_pairwise s (sortDesc rest) ih

theorem mem_upsert_self (S : ChatSession) (l : List ChatSession) : S ∈ upsert S l := by
  induction l with
  | nil => simp [upsert]
  | cons t ts ih =>
    by_cases h : (t.id == S.id) = true
    · simp [upsert, h]
    · rw [upsert, if_neg h]
      exact List.mem_cons_of_mem t ih

theorem mem_sessionIds_upsert (S : ChatSession) (l : List ChatSession) (x : List Char)
    (hx : x ∈ sessionIds (upsert S l)) : x = S.id ∨ x ∈ sessionIds l := by
  induction l with
  | nil => simpa [upsert, sessionIds] using hx
  | cons t ts ih =>
    by_cases h : (t.id == S.id) = true
    · rw [upsert, if_pos h] at hx
      simp only [sessionIds, List.map_cons, List.mem_cons] at hx ⊢
      rcases hx with rfl | hx
      · exact Or.inl rfl
      · exact Or.inr (Or.inr hx)
    · rw [upsert, if_neg h] at hx
      simp only [sessionIds, List.map_cons, List.mem_cons] at hx ⊢
      rcases hx with rfl | hx
      · exact Or.inr (Or.inl rfl)
      · rcases ih hx with h1 | h1
        · exact Or.inl h1
        · exact Or.inr (Or.inr h1)

theorem upsert_idsNodup (S : ChatSession) (l : List ChatSession)
    (h : (sessionIds l).Nodup) : (sessionIds (upsert S l)).Nodup := by
  induction l with
  | nil => simp [upsert, sessionIds]
  | cons t ts ih =>
    simp only [sessionIds, List.map_cons, List.nodup_cons] at h
    obtain ⟨hnot, hts⟩ := h
    by_cases hb : (t.id == S.id) = true
    · have heq : t.id = S.id := by simpa using hb
      rw [upsert, if_pos hb]
      simp only [sessionIds, List.map_cons, List.nodup_cons]
      exact ⟨heq ▸ hnot, hts⟩
    · rw [upsert, if_neg hb]
      simp only [sessionIds, List.map_cons, List.nodup_cons]
      refine ⟨?_, ih hts⟩
      intro hmem
      rcases mem_sessionIds_upsert S ts t.id hmem with h1 | h1
      · exact hb (by simpa using h1)
      · exact hnot h1

theorem filter_id_eq_nil (idv : List Char) (l : List ChatSession)
    (h : idv ∉ sessionIds l) : l.filter (fun s => s.id == idv) = [] := by
  induction l with
  | nil => rfl
  | cons t ts ih =>
    simp only [sessionIds, List.map_cons, List.mem_cons, not_or] at h
    obtain ⟨h1, h2⟩ := h
    have hb : (t.id == idv) = false := by
      simpa using fun he => h1 he.symm
    simp only [List.filter_cons, hb, Bool.false_eq_true, if_false]
    exact ih (by simpa [sessionIds] using h2)

theorem upsert_filter_id (S : ChatSession) (l : List ChatSession)
    (h : (sessionIds l).Nodup) :
    (upsert S l).filter (fun s => s.id == S.id) = [S] := by
  induction l with
  | nil => simp [upsert, List.filter]
  | cons t ts ih =>
    simp only [sessionIds, List.map_cons, List.nodup_cons] at h
    obtain ⟨hnot, hts⟩ := h
    by_cases hb : (t.id == S.id) = true
    · have heq : t.id = S.id := by simpa using hb
      rw [upsert, if_pos hb]
      simp only [List.filter_cons, beq_self_eq_true, if_true]
      rw [filter_id_eq_nil S.id ts (heq ▸ hnot)]
    · rw [upsert, if_neg hb]
      simp only [List.filter_cons, hb, Bool.false_eq_true, if_false]
      exact ih hts

theorem replaceById_mem_id (idv : List Char) (s' : ChatSession) (l : List ChatSession)
    (t : ChatSession) (ht : t ∈ replaceById idv s' l) (hid : t.id = idv) : t = s' := by
  simp only [replaceById, List.mem_map] at ht
  obtain ⟨u, _, hfu⟩ := ht
  by_cases hb : (u.id == idv) = true
  · rw [if_pos hb] at hfu
    exact hfu.symm
  · rw [if_neg hb] at hfu
    subst hfu
    exact absurd (by simpa using hid) hb

theorem firstNum_none_of_noDigit (t : List Char)
    (h : ∀ c ∈ t, c.isDigit = false) : firstNum t = none := by
  induction t with
  | nil => rfl
  | cons c rest ih =>
    have htail : ∀ s1 : List Char, (∀ c ∈ s1, c.isDigit = false) →
        s1.takeWhile Char.isDigit = [] := by
      intro s1 hs1
      cases s1 with
      | nil => rfl
      | cons d ds => simp [List.takeWhile, hs1 d (List.mem_cons_self d ds)]
    have hm : matchNumAt (c :: rest) = none := by
      unfold matchNumAt numTail
      by_cases hc : ((c :: rest).head? = some '-')
      · rw [if_pos hc]
        have : (c :: rest).tail = rest := rfl
        rw [this, htail rest (fun x hx => h x (List.mem_cons_of_mem _ hx))]
        simp
      · rw [if_neg hc]
        rw [htail (c :: rest) h]
        simp
    rw [firstNum, hm]
    exact ih (fun x hx => h x (List.mem_cons_of_mem _ hx))

theorem parseValue_str_eq (s : List Char) (neg : Bool) (ds fs : List Char)
    (h : firstNum (removeCommas s) = some (neg, ds, fs)) :
    parseValue (.str s) = tokenValue neg ds fs := by
  simp [parseValue, h]

/-! ## Claim theorems -/

/-- C9: for every model response text containing no json_report fenced block
(the fence regex finds no match), the extraction section of
`sendMessageToGemini` returns the text unchanged, character for character,
and `reportData` is absent. -/
theorem extractReport_no_fence {α : Type} (parse : List Char → Option α)
    (s : List Char) (h : extractFence s = none) :
    extractReport parse s = { text := s, reportData := none } := by
  unfold extractReport
  rw [h]

/-- Witness for C9 at the concrete response text "hello". -/
theorem extractReport_no_fence_witness :
    extractReport (fun g => if g = ['1'] then some 1 else none) "hello".toList =
      { text := "hello".toList, reportData := none } :=
  extractReport_no_fence (fun g => if g = ['1'] then some 1 else none)
    "hello".toList (by decide)

/-- C2: for every model response text containing a report fence whose inner
content does not parse as JSON, the extractor returns `reportData` absent and
`cleanText` equal to the original input unmodified; the parse failure is
caught, so (being a total function here) nothing is thrown. The hypothesis
covers every fence, including one whose trimmed capture is empty. -/
theorem extractReport_malformed_fence {α : Type} (parse : List Char → Option α)
    (s pre inner post : List Char)
    (hf : extractFence s = some (pre, inner, post))
    (hp : parse (jsTrim inner) = none) :
    extractReport parse s = { text := s, reportData := none } := by
  unfold extractReport
  rw [hf]
  by_cases hg : jsTrim inner = []
  · simp [hg]
  · simp [hg, hp]

/-- Witness for C2 at a concrete response with a non-JSON fence body. -/
theorem extractReport_malformed_fence_witness :
    extractReport (fun _ => (none : Option Nat)) "a```json_report oops``` b".toList =
      { text := "a```json_report oops``` b".toList, reportData := none } :=
  extractReport_malformed_fence (fun _ => (none : Option Nat))
    "a```json_report oops``` b".toList "a".toList " oops".toList " b".toList
    (by decide) rfl

/-- C1: for every model response text containing a syntactically valid report
fence, the text decomposes as prefix, opening tag, inner span, closing fence,
suffix, and the extractor returns `reportData` equal to the parsed value and
`cleanText` equal to the surrounding text with the fenced block removed and
trimmed, the fixed fallback sentence when that removal leaves nothing.
`hJ` records that the empty string is not valid JSON, so a successfully
parsed capture is non-empty. -/
theorem extractReport_valid_fence {α : Type} (parse : List Char → Option α)
    (s pre inner post : List Char) (v : α)
    (hf : extractFence s = some (pre, inner, post))
    (hJ : parse [] = none)
    (hp : parse (jsTrim inner) = some v) :
    s = pre ++ openTag ++ inner ++ closeTag ++ post
    ∧ extractReport parse s =
        { text := if jsTrim (pre ++ post) = [] then fallbackText else jsTrim (pre ++ post)
          reportData := some v } := by
  have hne : jsTrim inner ≠ [] := by
    intro he
    rw [he, hJ] at hp
    exact Option.noConfusion hp
  refine ⟨extractFence_eq s pre inner post hf, ?_⟩
  unfold extractReport
  rw [hf]
  simp [hne, hp]

/-- Witness for C1 at a concrete response carrying a valid fence. -/
theorem extractReport_valid_fence_witness :
    "a```json_report 1``` b".toList =
        "a".toList ++ openTag ++ " 1".toList ++ closeTag ++ " b".toList
    ∧ extractReport (fun g => if g = ['1'] then some 1 else none)
        "a```json_report 1``` b".toList =
        { text := if jsTrim ("a".toList ++ " b".toList) = [] then fallbackText
                  else jsTrim ("a".toList ++ " b".toList)
          reportData := some 1 } :=
  extractReport_valid_fence (fun g => if g = ['1'] then some 1 else none)
    "a```json_report 1``` b".toList "a".toList " 1".toList " b".toList 1
    (by decide) (by decide) (by decide)

/-- C3 (amended): `getChatSessions` returns the empty list on an empty store,
and on a parseable store returns exactly the sessions owned by the given
user, ordered by `lastModified` descending; on a corrupt store the
`JSON.parse` failure propagates instead (see the counterexample). -/
theorem getChatSessions_filter_sort (uid : List Char) (all : List ChatSession) :
    getChatSessions uid .empty = Except.ok []
    ∧ ∃ l, getChatSessions uid (.valid all) = Except.ok l
        ∧ l.Perm (all.filter (fun s => s.userId == uid))
        ∧ l.Pairwise (fun a b => b.lastModified ≤ a.lastModified) :=
  ⟨rfl, sortDesc (all.filter (fun s => s.userId == uid)), rfl,
    sortDesc_perm _, sortDesc_pairwise _⟩

/-- Counterexample for C3 as stated: on a corrupt (unparseable) stored
collection, `getChatSessions` does not return the empty sequence; the
uncaught `JSON.parse` exception propagates. -/
theorem getChatSessions_corrupt_counterexample :
    ¬ (getChatSessions "u".toList StoreState.corrupt = Except.ok []) := by
  intro h
  exact Except.noConfusion h

/-- C6: saving a session and then listing the same user's sessions yields a
list that contains the saved session and is ordered by `lastModified`
descending. The hypothesis is that the save completed (the store was not
corrupt). -/
theorem saveSession_then_listSessions (S : ChatSession) (st st' : StoreState)
    (hsave : saveChatSession S st = Except.ok st') :
    ∃ l, getChatSessions S.userId st' = Except.ok l
      ∧ S ∈ l
      ∧ l.Pairwise (fun a b => b.lastModified ≤ a.lastModified) := by
  have key : ∀ all : List ChatSession,
      ∃ l, getChatSessions S.userId (.valid (upsert S all)) = Except.ok l
        ∧ S ∈ l ∧ l.Pairwise (fun a b => b.lastModified ≤ a.lastModified) := by
    intro all
    refine ⟨sortDesc ((upsert S all).filter (fun s => s.userId == S.userId)),
      rfl, ?_, sortDesc_pairwise _⟩
    refine (sortDesc_perm _).mem_iff.mpr (List.mem_filter.mpr ⟨mem_upsert_self S all, ?_⟩)
    exact beq_self_eq_true S.userId
  cases st with
  | corrupt => exact absurd hsave (by simp [saveChatSession])
  | empty =>
    simp only [saveChatSession, Except.ok.injEq] at hsave
    exact hsave ▸ key []
  | valid all =>
    simp only [saveChatSession, Except.ok.injEq] at hsave
    exact hsave ▸ key all

/-- Witness for C6: saving `demoSession` into the empty store. -/
theorem saveSession_then_listSessions_witness :
    ∃ l, getChatSessions demoSession.userId (.valid [demoSession]) = Except.ok l
      ∧ demoSession ∈ l
      ∧ l.Pairwise (fun a b => b.lastModified ≤ a.lastModified) :=
  saveSession_then_listSessions demoSession .empty (.valid [demoSession]) rfl

/-- C7: under the data-model invariant that stored session ids are pairwise
distinct, saving the same session twice leaves exactly one stored record with
that id, and that record is the saved session. -/
theorem saveSession_twice_unique (S : ChatSession) (st : StoreState)
    (h : storeIdsUnique st) :
    ∃ all2, (saveChatSession S st).bind (saveChatSession S) = Except.ok (.valid all2)
      ∧ all2.filter (fun s => s.id == S.id) = [S] := by
  cases st with
  | corrupt => exact absurd h (by simp [storeIdsUnique])
  | empty =>
    refine ⟨upsert S (upsert S []), rfl, ?_⟩
    exact upsert_filter_id S (upsert S [])
      (upsert_idsNodup S [] (by simp [sessionIds]))
  | valid all =>
    refine ⟨upsert S (upsert S all), rfl, ?_⟩
    exact upsert_filter_id S (upsert S all) (upsert_idsNodup S all h)

/-- Witness for C7: double save of `demoSession` into the empty store. -/
theorem saveSession_twice_unique_witness :
    ∃ all2, (saveChatSession demoSession .empty).bind (saveChatSession demoSession)
        = Except.ok (.valid all2)
      ∧ all2.filter (fun s => s.id == demoSession.id) = [demoSession] :=
  saveSession_twice_unique demoSession .empty trivial

/-- C4 (amended): appending a user message to a session with at most one
prior message sets the title to the message text, truncated to its first 30
characters followed by an ellipsis when longer than 30 characters; with two
or more prior messages the title is unchanged. On the NVDA input the
30-character prefix ends in a space, so the derived title is
"Should I buy NVDA? What about ..." with a space before the ellipsis. -/
theorem title_derivation (cur : ChatSession) (input : List Char) (t0 : Nat) :
    ((updatedSessionOf cur input t0).title =
      if cur.messages.length ≤ 1 then
        (if 30 < input.length then input.take 30 ++ "...".toList else input)
      else cur.title)
    ∧ (updatedSessionOf welcomeSession nvdaText 1).title =
        "Should I buy NVDA? What about ...".toList :=
  ⟨rfl, by decide⟩

/-- Counterexample for C4 as stated: the NVDA input does not yield the title
"Should I buy NVDA? What about..."; the 30-character prefix retains its
trailing space. -/
theorem title_nvda_counterexample :
    ¬ ((updatedSessionOf welcomeSession nvdaText 1).title =
      "Should I buy NVDA? What about...".toList) := by decide

/-- C5: when the channel call rejects, the exchange ends with the session
holding exactly the user message followed by one model message carrying the
fixed apology string, no message with `isLoading` set remains (the
placeholder lived only in the intermediate in-memory list), the final
in-memory list holds this error session under the current id, and the error
session is persisted to the store. -/
theorem channel_error_recovery (sessions all : List ChatSession)
    (cur : ChatSession) (input : List Char) (t0 t1 t2 : Nat)
    (hclean : ∀ m ∈ cur.messages, m.isLoading ≠ some true) :
    ∃ sl store2,
      sendExchangeError sessions (.valid all) cur input t0 t1 t2 = Except.ok (sl, store2)
      ∧ (errorSessionOf cur input t0 t2).messages
          = cur.messages ++ [mkUserMessage t0 input, apologyMessage t2]
      ∧ (apologyMessage t2).role = Role.model
      ∧ (apologyMessage t2).text = apologyText
      ∧ (∀ m ∈ (errorSessionOf cur input t0 t2).messages, m.isLoading ≠ some true)
      ∧ (∀ s ∈ sl, s.id = cur.id → s = errorSessionOf cur input t0 t2)
      ∧ ∃ all2, store2 = .valid all2 ∧ errorSessionOf cur input t0 t2 ∈ all2 := by
  refine ⟨replaceById cur.id (errorSessionOf cur input t0 t2)
      (replaceById cur.id (sessionWithLoadingOf cur input t0 t1)
        (replaceById cur.id (updatedSessionOf cur input t0) sessions)),
    .valid (upsert (errorSessionOf cur input t0 t2)
      (upsert (updatedSessionOf cur input t0) all)),
    rfl, rfl, rfl, rfl, ?_, ?_,
    ⟨upsert (errorSessionOf cur input t0 t2) (upsert (updatedSessionOf cur input t0) all),
      rfl, mem_upsert_self _ _⟩⟩
  · intro m hm
    have hm' : m ∈ cur.messages ++ [mkUserMessage t0 input, apologyMessage t2] := hm
    rcases List.mem_append.mp hm' with h1 | h1
    · exact hclean m h1
    · rcases List.mem_cons.mp h1 with rfl | h1
      · simp [mkUserMessage]
      · rcases List.mem_cons.mp h1 with rfl | h1
        · simp [apologyMessage]
        · simp at h1
  · intro s hs hsid
    exact replaceById_mem_id cur.id _ _ s hs hsid

/-- Witness for C5 with `demoSession` active and an empty stored collection. -/
theorem channel_error_recovery_witness :
    ∃ sl store2,
      sendExchangeError [demoSession] (.valid []) demoSession "hi".toList 3 4 5
        = Except.ok (sl, store2)
      ∧ (errorSessionOf demoSession "hi".toList 3 5).messages
          = demoSession.messages ++ [mkUserMessage 3 "hi".toList, apologyMessage 5]
      ∧ (apologyMessage 5).role = Role.model
      ∧ (apologyMessage 5).text = apologyText
      ∧ (∀ m ∈ (errorSessionOf demoSession "hi".toList 3 5).messages,
          m.isLoading ≠ some true)
      ∧ (∀ s ∈ sl, s.id = demoSession.id → s = errorSessionOf demoSession "hi".toList 3 5)
      ∧ ∃ all2, store2 = .valid all2 ∧ errorSessionOf demoSession "hi".toList 3 5 ∈ all2 :=
  channel_error_recovery [demoSession] [] demoSession "hi".toList 3 4 5 (by decide)

/-- C8: with the user's list `[S1 (active), S2]`, deleting `S1` leaves `S2`
active and the store holding only `S2` for that user; deleting the last
remaining session replaces it with a freshly synthesized session, titled
"New Analysis" and seeded with the welcome message, which becomes active. -/
theorem delete_active_session (S1 S2 : ChatSession) (u : List Char) (now : Nat)
    (hid : ¬ (S2.id = S1.id)) (hu2 : S2.userId = u) :
    (∃ st', handleDeleteSession [S1, S2] (some S1.id) u (.valid [S1, S2]) S1.id now
        = Except.ok ([S2], some S2.id, st')
      ∧ getChatSessions u st' = Except.ok [S2])
    ∧ (∃ ns st2, handleDeleteSession [S1] (some S1.id) u (.valid [S1]) S1.id now
        = Except.ok ([ns], some ns.id, st2)
      ∧ ns.title = "New Analysis".toList
      ∧ ns.messages = [welcomeMessage]
      ∧ ns.userId = u) := by
  have hb2 : (S2.id == S1.id) = false := beq_eq_false_iff_ne.mpr hid
  have hbu : (S2.userId == u) = true := beq_iff_eq.mpr hu2
  constructor
  · refine ⟨.valid [S2], ?_, ?_⟩
    · unfold handleDeleteSession
      simp [deleteChatSession, hb2]
    · simp [getChatSessions, hbu, sortDesc, insertDesc]
  · refine ⟨{ createNewSession u now with messages := [welcomeMessage] }, .valid
      [{ createNewSession u now with messages := [welcomeMessage] }], ?_, rfl, rfl, rfl⟩
    unfold handleDeleteSession startNewChat
    simp [deleteChatSession, saveChatSession, upsert]

/-- Witness for C8 at two concrete sessions. -/
theorem delete_active_session_witness :
    (∃ st', handleDeleteSession [demoSession, welcomeSession] (some demoSession.id)
          "u1".toList (.valid [demoSession, welcomeSession]) demoSession.id 7
        = Except.ok ([welcomeSession], some welcomeSession.id, st')
      ∧ getChatSessions "u1".toList st' = Except.ok [welcomeSession])
    ∧ (∃ ns st2, handleDeleteSession [demoSession] (some demoSession.id)
          "u1".toList (.valid [demoSession]) demoSession.id 7
        = Except.ok ([ns], some ns.id, st2)
      ∧ ns.title = "New Analysis".toList
      ∧ ns.messages = [welcomeMessage]
      ∧ ns.userId = "u1".toList) :=
  delete_active_session demoSession welcomeSession "u1".toList 7 (by decide) (by decide)

/-- C10: `parseValue` is a total function into the rationals; a numeric input
is returned unchanged; a string input yields the first substring matching
the numeric pattern, after comma removal, read as a decimal (shown on the
representative inputs, including one exercising comma removal); a string with
no digit at all yields 0. -/
theorem parseValue_total_spec :
    (∀ q : ℚ, parseValue (.num q) = q)
    ∧ (∀ v : JsValue, ∃ q : ℚ, parseValue v = q)
    ∧ parseValue (.str "$150.20".toList) = 150.2
    ∧ parseValue (.str "25.4x".toList) = 25.4
    ∧ parseValue (.str "12%".toList) = 12
    ∧ parseValue (.str "1,234.5".toList) = 1234.5
    ∧ parseValue (.str "N/A".toList) = 0
    ∧ ∀ s : List Char, (∀ c ∈ s, c.isDigit = false) → parseValue (.str s) = 0 := by
  refine ⟨fun q => rfl, fun v => ⟨parseValue v, rfl⟩, ?_, ?_, ?_, ?_, ?_, ?_⟩
  · have h1 : digitsToNat "150".toList = 150 := by decide
    have h2 : digitsToNat "20".toList = 20 := by decide
    have h3 : ("20".toList).length = 2 := by decide
    rw [parseValue_str_eq _ false ("150".toList) ("20".toList) (by decide)]
    simp only [tokenValue, h1, h2, h3]
    norm_num
  · have h1 : digitsToNat "25".toList = 25 := by decide
    have h2 : digitsToNat "4".toList = 4 := by decide
    have h3 : ("4".toList).length = 1 := by decide
    rw [parseValue_str_eq _ false ("25".toList) ("4".toList) (by decide)]
    simp only [tokenValue, h1, h2, h3]
    norm_num
  · have h1 : digitsToNat "12".toList = 12 := by decide
    have h0 : digitsToNat [] = 0 := rfl
    rw [parseValue_str_eq _ false ("12".toList) [] (by decide)]
    simp only [tokenValue, h1, h0, List.length_nil]
    norm_num
  · have h1 : digitsToNat "1234".toList = 1234 := by decide
    have h2 : digitsToNat "5".toList = 5 := by decide
    have h3 : ("5".toList).length = 1 := by decide
    rw [parseValue_str_eq _ false ("1234".toList) ("5".toList) (by decide)]
    simp only [tokenValue, h1, h2, h3]
    norm_num
  · have h : firstNum (removeCommas ['N', '/', 'A']) = none := by decide
    simp [parseValue, h]
  · intro s hs
    have hrc : ∀ c ∈ removeCommas s, c.isDigit = false := by
      intro c hc
      exact hs c (List.mem_of_mem_filter hc)
    have h := firstNum_none_of_noDigit (removeCommas s) hrc
    simp [parseValue, h]

/-- Witness for C10 at the digit-free input "N/A". -/
theorem parseValue_total_spec_witness :
    (∀ c ∈ "N/A".toList, c.isDigit = false) ∧ parseValue (.str "N/A".toList) = 0 :=
  ⟨by decide, parseValue_total_spec.2.2.2.2.2.2.2 "N/A".toList (by decide)⟩

end OverUnder
